import Mathlib

/-!
# Verification of the sortable-table component

A shallow embedding of the `SortableTable` class (TypeScript) and proofs about
its sort/render state machine.  The DOM is modelled only as far as the sort
logic observes it: the list of `data-id` attributes rendered on header cells,
and which header cell currently carries a `sort-asc`/`sort-desc` class marker.

Modelling conventions:
* `Cell` is represented by its string value; the optional `cellRenderer`
  function is irrelevant to every sorting and state claim and is omitted.
* JavaScript `Array.prototype.sort` is modelled as a stable insertion sort
  (ECMAScript requires `sort` to be stable; for a consistent comparator the
  stable sorted order is unique, so any stable sort is a faithful model).
* `Number(s)` is only ever applied to comma-stripped matches of `^[0-9,]+$`,
  i.e. to strings of ASCII digits (possibly empty).  On that domain it is the
  exact decimal value, with `Number("") = 0`; the model uses exact naturals
  (float rounding above 2^53 is idealised away).
* JavaScript `<` on strings compares UTF-16 code units; the model compares
  `Char` code points, which agrees on all of the Basic Multilingual Plane.
-/

deriving instance DecidableEq for Except

namespace SortableTable

/-- The `SortDirection` union type `'asc' | 'desc'`. -/
inductive SortDirection where
  | asc
  | desc
  deriving DecidableEq, Repr

/-- The `Column` record: `{ id; label; sortable; sortDirection }`.  The
`sortDirection` field is `Option`al because the code guards against a falsy
(missing/empty) direction in `getInversedSortDirection`. -/
structure Column where
  id : String
  label : String
  sortable : Bool
  sortDirection : Option SortDirection
  deriving DecidableEq, Repr

/-- A `Row` maps column ids to cell values (association list, first match
wins, like property lookup on the object literal). -/
abbrev Row := List (String × String)

/-- The fields of the `SortableTable` class, together with the two DOM
observables the sort logic depends on: `domHeaderIds` is the sequence of
`data-id` attributes of rendered `<th>` elements, and `sortMarker` records
which header cell currently carries a `sort-asc`/`sort-desc` class. -/
structure TableState where
  header : List Column
  columnIds : List String
  originalData : List Row
  displayData : List Row
  selectedColumnId : String
  domHeaderIds : List String
  sortMarker : Option (String × SortDirection)
  deriving DecidableEq, Repr

/-- The constructor's field initialisation (the container element itself is
not modelled; construction throws only when the selector matches nothing). -/
def initState : TableState :=
  { header := []
    columnIds := []
    originalData := []
    displayData := []
    selectedColumnId := ""
    domHeaderIds := []
    sortMarker := none }

/-- `canCastToNumber`: `/^[0-9,]+$/.test(str)` — non-empty and every
character an ASCII digit or a comma. -/
def canCastToNumber (str : String) : Bool :=
  !str.data.isEmpty && str.data.all (fun ch => ch.isDigit || ch == ',')

/-- `removeCommas`: `str.replace(/,/g, '')`. -/
def removeCommas (str : String) : String :=
  ⟨str.data.filter (fun ch => ch != ',')⟩

/-- `Number(str)` on a string of ASCII digits: the decimal value, and `0` for
the empty string.  (These are the only inputs the component ever passes.) -/
def jsNumber (str : String) : Nat :=
  str.data.foldl (fun n ch => n * 10 + (ch.toNat - 48)) 0

/-- JavaScript `<` on two code-unit sequences: lexicographic comparison,
a strict prefix being smaller. -/
def jsCharsLt : List Char → List Char → Bool
  | _, [] => false
  | [], _ :: _ => true
  | a :: as, b :: bs =>
    if a.toNat < b.toNat then true
    else if b.toNat < a.toNat then false
    else jsCharsLt as bs

/-- JavaScript `<` on strings. -/
def jsStringLt (a b : String) : Bool :=
  jsCharsLt a.data b.data

/-- The body of the comparator passed to `Array.prototype.sort` in `_sort`,
after the two cell values have been read: if both values match `^[0-9,]+$`
they are compared as numbers with commas stripped, otherwise as strings;
`sign` is `1` for ascending and `-1` for descending. -/
def compareValues (sign : Int) (valA valB : String) : Int :=
  if canCastToNumber valA && canCastToNumber valB then
    let numA := jsNumber (removeCommas valA)
    let numB := jsNumber (removeCommas valB)
    if numA < numB then sign * -1
    else if numB < numA then sign
    else 0
  else
    if jsStringLt valA valB then sign * -1
    else if jsStringLt valB valA then sign
    else 0

/-- `row[columnId].value`.  In JavaScript a missing key would throw; the
model totalises with `""`, and every quantified theorem about sorting either
assumes the key is present or does not depend on the looked-up value. -/
def rowValue (row : Row) (columnId : String) : String :=
  match row.find? (fun cell => cell.fst == columnId) with
  | some cell => cell.snd
  | none => ""

/-- The comparator of `_sort`: `sign` comes from the direction, the two cell
values from the rows. -/
def rowCompare (columnId : String) (direction : SortDirection) (a b : Row) : Int :=
  compareValues (if direction = SortDirection.asc then 1 else -1)
    (rowValue a columnId) (rowValue b columnId)

/-- Insert `a` into `l`, before the first element `b` with `le a b`.  Used to
model the stable `Array.prototype.sort`. -/
def jsInsert {α : Type} (le : α → α → Bool) (a : α) : List α → List α
  | [] => [a]
  | b :: l => if le a b then a :: b :: l else b :: jsInsert le a l

/-- Stable insertion sort: the model of `Array.prototype.sort` (see the
module docstring). -/
def jsSortBy {α : Type} (le : α → α → Bool) : List α → List α
  | [] => []
  | a :: l => jsInsert le a (jsSortBy le l)

/-- The private `_sort(columnId, direction)` method, applied to a dataset:
sorts by the comparator built from the column's values and the direction. -/
def _sort (columnId : String) (direction : SortDirection) (data : List Row) : List Row :=
  jsSortBy (fun a b => decide (rowCompare columnId direction a b ≤ 0)) data

/-- `getInversedSortDirection`: `!direction || direction === 'desc' ? 'asc' : 'desc'`. -/
def getInversedSortDirection : Option SortDirection → SortDirection
  | none => SortDirection.asc
  | some SortDirection.desc => SortDirection.asc
  | some SortDirection.asc => SortDirection.desc

/-- `getHeaderColmun`: `this.header.find((column) => column.id = columnId)`.
The predicate contains an assignment, not a comparison: each visited column
has its `id` overwritten with `columnId`, and the predicate's result is the
assigned value, truthy exactly when `columnId` is non-empty.  Returns the
header after the traversal together with `find`'s result. -/
def getHeaderColmun (header : List Column) (columnId : String) :
    List Column × Option Column :=
  match header with
  | [] => ([], none)
  | column :: rest =>
    let visited := { column with id := columnId }
    if columnId ≠ "" then (visited :: rest, some visited)
    else
      let next := getHeaderColmun rest columnId
      (visited :: next.fst, next.snd)

/-- `setHeader(header)`: falsy (null/undefined) input is an early return; an
array (empty or not) is stored, its ids are pushed onto `columnIds`, and
`renderHeader` appends one `<th data-id=...>` per column to the DOM. -/
def setHeader (s : TableState) (header : Option (List Column)) : TableState :=
  match header with
  | none => s
  | some hdr =>
    { s with
      header := hdr
      columnIds := s.columnIds ++ hdr.map Column.id
      domHeaderIds := s.domHeaderIds ++ hdr.map Column.id }

/-- `setData(data)`: falsy (null/undefined) input is an early return; an
array (empty or not) is stored as both the backing and the display dataset. -/
def setData (s : TableState) (data : Option (List Row)) : TableState :=
  match data with
  | none => s
  | some rows =>
    { s with
      originalData := rows
      displayData := rows }

/-- `getTableData()`: returns `this.displayData`. -/
def getTableData (s : TableState) : List Row :=
  s.displayData

/-- The private `sort(columnId)` method.  Throws when no rendered header
cell carries `data-id = columnId`, or when `getHeaderColmun` finds nothing;
otherwise clears all sort markers, decides the new direction (flip when the
column is already selected, ascending when selected fresh), writes it into
the looked-up column (the head of the traversed header), marks the header
cell, sorts `originalData` in place and stores it also as `displayData`. -/
def sort (s : TableState) (columnId : String) : Except String TableState :=
  if columnId ∈ s.domHeaderIds then
    match getHeaderColmun s.header columnId with
    | (_, none) => Except.error ("data-id \"" ++ columnId ++ "\" is not found.")
    | (header1, some column) =>
      let newDirection :=
        if s.selectedColumnId = columnId then
          getInversedSortDirection column.sortDirection
        else SortDirection.asc
      let selected1 :=
        if s.selectedColumnId = columnId then s.selectedColumnId else columnId
      let header2 :=
        match header1 with
        | [] => []
        | c :: rest => { c with sortDirection := some newDirection } :: rest
      let sorted := _sort columnId newDirection s.originalData
      Except.ok
        { s with
          header := header2
          selectedColumnId := selected1
          sortMarker := some (columnId, newDirection)
          originalData := sorted
          displayData := sorted }
  else
    Except.error ("data-id \"" ++ columnId ++ "\" is not found.")

/-- The direction a `sort columnId` call applies, given the first header
column (the one `getHeaderColmun` returns): flip the stored direction when
the column is already selected, ascending otherwise (lines 147-152). -/
def appliedDirection (s : TableState) (c : String) (col : Column) : SortDirection :=
  if s.selectedColumnId = c then getInversedSortDirection col.sortDirection
  else SortDirection.asc

/-- The state a successful `sort` call produces (proved equal to `sort`'s
result in `sort_eq_ok`). -/
def sortResult (s : TableState) (c : String) (col : Column) (rest : List Column) : TableState :=
  { s with
    header := { col with id := c, sortDirection := some (appliedDirection s c col) } :: rest
    selectedColumnId := c
    sortMarker := some (c, appliedDirection s c col)
    originalData := _sort c (appliedDirection s c col) s.originalData
    displayData := _sort c (appliedDirection s c col) s.originalData }

/-! ## Concrete scenarios used as witnesses and counterexamples -/

/-- A table whose column `a` is selected with a stored ascending direction. -/
def exC3State : TableState :=
  { header := [{ id := "a", label := "A", sortable := true, sortDirection := some SortDirection.asc }]
    columnIds := ["a"]
    originalData := []
    displayData := []
    selectedColumnId := "a"
    domHeaderIds := ["a"]
    sortMarker := none }

/-- The state after clicking column `a` of `exC3State` again. -/
def exC3Next : TableState :=
  match sort exC3State "a" with
  | Except.ok t => t
  | Except.error _ => exC3State

/-- A one-column header. -/
def exC4Header : List Column :=
  [{ id := "col", label := "Col", sortable := true, sortDirection := none }]

/-- Two rows whose `col` values are distinct strings but equal numbers
(`10` and `1,0` both cast to the number 10). -/
def exC4Data : List Row :=
  [[("col", "10")], [("col", "1,0")]]

/-- The table holding `exC4Data`, before any click. -/
def exC4S0 : TableState :=
  setData (setHeader initState (some exC4Header)) (some exC4Data)

/-- After the first click on `col` (ascending). -/
def exC4S1 : TableState :=
  match sort exC4S0 "col" with
  | Except.ok t => t
  | Except.error _ => exC4S0

/-- After the second click on `col` (descending). -/
def exC4S2 : TableState :=
  match sort exC4S1 "col" with
  | Except.ok t => t
  | Except.error _ => exC4S1

/-- A table holding one row, for the `setData([])` counterexample. -/
def exC8S : TableState :=
  setData initState (some [[("col", "x")]])

/-! ## Generic facts about the stable-sort model -/

/-- `jsInsert` permutes: inserting `a` yields a rearrangement of `a :: l`. -/
theorem jsInsert_perm {α : Type} (le : α → α → Bool) (a : α) (l : List α) :
    (jsInsert le a l).Perm (a :: l) := by
  induction l with
  | nil => simp [jsInsert]
  | cons b t ih =>
    by_cases h : le a b = true
    · simp [jsInsert, h]
    · simp only [jsInsert, h, if_false, Bool.false_eq_true]
      exact (ih.cons b).trans (List.Perm.swap a b t)

/-- The sort model permutes its input. -/
theorem jsSortBy_perm {α : Type} (le : α → α → Bool) (l : List α) :
    (jsSortBy le l).Perm l := by
  induction l with
  | nil => simp [jsSortBy]
  | cons a t ih =>
    simp only [jsSortBy]
    exact (jsInsert_perm le a (jsSortBy le t)).trans (ih.cons a)

theorem mem_jsInsert {α : Type} (le : α → α → Bool) (a x : α) (l : List α) :
    x ∈ jsInsert le a l ↔ x = a ∨ x ∈ l := by
  have h := (jsInsert_perm le a l).mem_iff (a := x)
  simpa using h

/-- Inserting into a sorted list keeps it sorted, provided `le` is total and
transitive on the elements involved. -/
theorem pairwise_jsInsert {α : Type} (le : α → α → Bool)
    (htot : ∀ x y, le x y = true ∨ le y x = true) (a : α) :
    ∀ l : List α,
      (∀ x ∈ a :: l, ∀ y ∈ a :: l, ∀ z ∈ a :: l,
        le x y = true → le y z = true → le x z = true) →
      l.Pairwise (fun x y => le x y = true) →
      (jsInsert le a l).Pairwise (fun x y => le x y = true) := by
  intro l
  induction l with
  | nil =>
    intro _ _
    simp [jsInsert]
  | cons b t ih =>
    intro htr hl
    rw [List.pairwise_cons] at hl
    obtain ⟨hb, ht⟩ := hl
    by_cases h : le a b = true
    · simp only [jsInsert, h, if_true]
      refine List.pairwise_cons.mpr ⟨?_, List.pairwise_cons.mpr ⟨hb, ht⟩⟩
      intro x hx
      rcases List.mem_cons.mp hx with rfl | hx2
      · exact h
      · exact htr a (by simp) b (by simp) x (by simp [hx2]) h (hb x hx2)
    · simp only [jsInsert, h, if_false, Bool.false_eq_true]
      refine List.pairwise_cons.mpr ⟨?_, ih ?_ ht⟩
      · intro x hx
        rcases (mem_jsInsert le a x t).mp hx with hxa | hx2
        · rw [hxa]
          rcases htot a b with h1 | h1
          · exact absurd h1 h
          · exact h1
        · exact hb x hx2
      · intro x hx y hy z hz
        have hsub : ∀ w, w ∈ a :: t → w ∈ a :: b :: t := by
          intro w hw
          rcases List.mem_cons.mp hw with rfl | hw2
          · simp
          · simp [hw2]
        exact htr x (hsub x hx) y (hsub y hy) z (hsub z hz)

/-- The sort model sorts, provided `le` is total and transitive on the
elements of the list. -/
theorem pairwise_jsSortBy {α : Type} (le : α → α → Bool)
    (htot : ∀ x y, le x y = true ∨ le y x = true) :
    ∀ l : List α,
      (∀ x ∈ l, ∀ y ∈ l, ∀ z ∈ l, le x y = true → le y z = true → le x z = true) →
      (jsSortBy le l).Pairwise (fun x y => le x y = true) := by
  intro l
  induction l with
  | nil =>
    intro _
    simp [jsSortBy]
  | cons a t ih =>
    intro htr
    simp only [jsSortBy]
    have hmem : ∀ w, w ∈ jsSortBy le t → w ∈ t := by
      intro w hw
      exact ((jsSortBy_perm le t).mem_iff).mp hw
    have hsub : ∀ w, w ∈ a :: jsSortBy le t → w ∈ a :: t := by
      intro w hw
      rcases List.mem_cons.mp hw with rfl | hw2
      · simp
      · simp [hmem w hw2]
    refine pairwise_jsInsert le htot a (jsSortBy le t) ?_ (ih ?_)
    · intro x hx y hy z hz
      have hsub2 : ∀ w, w ∈ a :: t → w ∈ a :: t := fun w hw => hw
      exact htr x (hsub x hx) y (hsub y hy) z (hsub z hz)
    · intro x hx y hy z hz
      exact htr x (by simp [hx]) y (by simp [hy]) z (by simp [hz])

/-- Two rearrangements of the same elements, each sorted by an asymmetric
relation, coincide. -/
theorem eq_of_perm_of_pairwise {α : Type} {R : α → α → Prop}
    (hasymm : ∀ x y, R x y → R y x → False) :
    ∀ l1 l2 : List α, l1.Perm l2 → l1.Pairwise R → l2.Pairwise R → l1 = l2 := by
  intro l1
  induction l1 with
  | nil =>
    intro l2 hp _ _
    exact (hp.symm.eq_nil).symm
  | cons a t ih =>
    intro l2 hp h1 h2
    cases l2 with
    | nil => exact absurd hp.eq_nil (by simp)
    | cons b t2 =>
      rw [List.pairwise_cons] at h1 h2
      by_cases hab : a = b
      · subst hab
        rw [ih t2 hp.cons_inv h1.2 h2.2]
      · have ha : a ∈ b :: t2 := hp.mem_iff.mp (List.mem_cons_self a t)
        have hbmem : b ∈ a :: t := hp.symm.mem_iff.mp (List.mem_cons_self b t2)
        have ha2 : a ∈ t2 := by
          rcases List.mem_cons.mp ha with h | h
          · exact absurd h hab
          · exact h
        have hb2 : b ∈ t := by
          rcases List.mem_cons.mp hbmem with h | h
          · exact absurd h.symm hab
          · exact h
        exact absurd (h1.1 b hb2) (fun hRab => hasymm a b hRab (h2.1 a ha2))

/-! ## Facts about the comparison policy -/

/-- The code-unit comparison is asymmetric. -/
theorem jsCharsLt_asymm :
    ∀ {as bs : List Char}, jsCharsLt as bs = true → jsCharsLt bs as = false := by
  intro as
  induction as with
  | nil =>
    intro bs h
    cases bs with
    | nil => simp [jsCharsLt] at h
    | cons b bs => simp [jsCharsLt]
  | cons a as ih =>
    intro bs h
    cases bs with
    | nil => simp [jsCharsLt] at h
    | cons b bs =>
      by_cases h1 : a.toNat < b.toNat
      · have h2 : ¬ b.toNat < a.toNat := by omega
        simp [jsCharsLt, h1, h2]
      · by_cases h2 : b.toNat < a.toNat
        · simp [jsCharsLt, h1, h2] at h
        · simp only [jsCharsLt, h1, h2, if_false] at h ⊢
          exact ih h

theorem jsStringLt_asymm {a b : String} (h : jsStringLt a b = true) :
    jsStringLt b a = false :=
  jsCharsLt_asymm h

/-- Swapping the two values negates the comparator (for any sign). -/
theorem compareValues_antisymm (sign : Int) (a b : String) :
    compareValues sign b a = -(compareValues sign a b) := by
  unfold compareValues
  by_cases hc : (canCastToNumber a && canCastToNumber b) = true
  · have hc2 : (canCastToNumber b && canCastToNumber a) = true := by
      rw [Bool.and_comm]
      exact hc
    simp only [hc, hc2, if_true]
    rcases Nat.lt_trichotomy (jsNumber (removeCommas a)) (jsNumber (removeCommas b))
      with h | h | h
    · have h2 : ¬ jsNumber (removeCommas b) < jsNumber (removeCommas a) := by omega
      simp [h, h2]
    · simp [h]
    · have h2 : ¬ jsNumber (removeCommas a) < jsNumber (removeCommas b) := by omega
      simp [h, h2]
  · have hc2 : ¬ (canCastToNumber b && canCastToNumber a) = true := by
      rw [Bool.and_comm]
      exact hc
    simp only [hc, hc2, if_false]
    by_cases h1 : jsStringLt a b = true
    · have h2 : jsStringLt b a = false := jsStringLt_asymm h1
      simp [h1, h2]
    · by_cases h2 : jsStringLt b a = true
      · simp [h1, h2]
      · simp [h1, h2]

/-- Flipping the sign flips the comparator. -/
theorem compareValues_neg_sign (a b : String) :
    compareValues (-1) a b = -(compareValues 1 a b) := by
  unfold compareValues
  by_cases hc : (canCastToNumber a && canCastToNumber b) = true
  · simp only [hc, if_true]
    rcases Nat.lt_trichotomy (jsNumber (removeCommas a)) (jsNumber (removeCommas b))
      with h | h | h
    · simp [h]
    · simp [h]
    · have h2 : ¬ jsNumber (removeCommas a) < jsNumber (removeCommas b) := by omega
      simp [h, h2]
  · simp only [hc, if_false]
    by_cases h1 : jsStringLt a b = true
    · simp [h1]
    · by_cases h2 : jsStringLt b a = true
      · simp [h1, h2]
      · simp [h1, h2]

/-- Swapping the two rows negates the comparator. -/
theorem rowCompare_antisymm (columnId : String) (direction : SortDirection) (a b : Row) :
    rowCompare columnId direction b a = -(rowCompare columnId direction a b) :=
  compareValues_antisymm _ _ _

/-- The descending comparator is the negation of the ascending one. -/
theorem rowCompare_desc (columnId : String) (a b : Row) :
    rowCompare columnId SortDirection.desc a b
      = -(rowCompare columnId SortDirection.asc a b) := by
  unfold rowCompare
  rw [if_neg (by simp : ¬ (SortDirection.desc = SortDirection.asc)),
    if_pos (rfl : SortDirection.asc = SortDirection.asc)]
  exact compareValues_neg_sign _ _

/-- The comparator-induced `≤` is total. -/
theorem rowCompare_total (columnId : String) (direction : SortDirection) (a b : Row) :
    rowCompare columnId direction a b ≤ 0 ∨ rowCompare columnId direction b a ≤ 0 := by
  by_cases h : rowCompare columnId direction a b ≤ 0
  · exact Or.inl h
  · right
    rw [rowCompare_antisymm]
    omega

/-- Descending `_sort` of the ascending `_sort` result is its exact reverse,
provided no two rows of the dataset tie under the comparator and the
comparator is transitive on the dataset's rows. -/
theorem desc_sort_reverse (c : String) (l : List Row)
    (hne : l.Pairwise (fun a b => rowCompare c SortDirection.asc a b ≠ 0))
    (htr : ∀ x ∈ l, ∀ y ∈ l, ∀ z ∈ l,
      rowCompare c SortDirection.asc x y ≤ 0 → rowCompare c SortDirection.asc y z ≤ 0 →
      rowCompare c SortDirection.asc x z ≤ 0) :
    _sort c SortDirection.desc (_sort c SortDirection.asc l)
      = (_sort c SortDirection.asc l).reverse := by
  simp only [_sort]
  set leA : Row → Row → Bool :=
    fun a b => decide (rowCompare c SortDirection.asc a b ≤ 0) with hleA
  set leD : Row → Row → Bool :=
    fun a b => decide (rowCompare c SortDirection.desc a b ≤ 0) with hleD
  set A := jsSortBy leA l with hAdef
  set D := jsSortBy leD A with hDdef
  have hAperm : A.Perm l := jsSortBy_perm leA l
  have hmemA : ∀ w, w ∈ A → w ∈ l := fun w hw => hAperm.mem_iff.mp hw
  have htotA : ∀ x y, leA x y = true ∨ leA y x = true := by
    intro x y
    simp only [hleA, decide_eq_true_eq]
    exact rowCompare_total c SortDirection.asc x y
  have hsA : A.Pairwise (fun x y => leA x y = true) := by
    apply pairwise_jsSortBy leA htotA l
    intro x hx y hy z hz
    simp only [hleA, decide_eq_true_eq]
    exact htr x hx y hy z hz
  have hsymne : ∀ {x y : Row},
      rowCompare c SortDirection.asc x y ≠ 0 → rowCompare c SortDirection.asc y x ≠ 0 := by
    intro x y h
    rw [rowCompare_antisymm]
    omega
  have hneA : A.Pairwise (fun x y => rowCompare c SortDirection.asc x y ≠ 0) :=
    (hAperm.pairwise_iff hsymne).mpr hne
  have hgtRev : A.reverse.Pairwise (fun x y => 0 < rowCompare c SortDirection.asc x y) := by
    rw [List.pairwise_reverse]
    refine (hsA.and hneA).imp ?_
    intro x y hxy
    obtain ⟨h1, h2⟩ := hxy
    simp only [hleA, decide_eq_true_eq] at h1
    rw [rowCompare_antisymm]
    omega
  have hDperm : D.Perm A := jsSortBy_perm leD A
  have htotD : ∀ x y, leD x y = true ∨ leD y x = true := by
    intro x y
    simp only [hleD, decide_eq_true_eq]
    exact rowCompare_total c SortDirection.desc x y
  have hsD : D.Pairwise (fun x y => leD x y = true) := by
    apply pairwise_jsSortBy leD htotD A
    intro x hx y hy z hz
    simp only [hleD, decide_eq_true_eq, rowCompare_desc]
    intro h1 h2
    have hx2 := hmemA x hx
    have hy2 := hmemA y hy
    have hz2 := hmemA z hz
    have h3 : rowCompare c SortDirection.asc y x ≤ 0 := by
      rw [rowCompare_antisymm]
      omega
    have h4 : rowCompare c SortDirection.asc z y ≤ 0 := by
      rw [rowCompare_antisymm]
      omega
    have h5 := htr z hz2 y hy2 x hx2 h4 h3
    rw [rowCompare_antisymm c SortDirection.asc x z] at h5
    omega
  have hneD : D.Pairwise (fun x y => rowCompare c SortDirection.asc x y ≠ 0) :=
    ((hDperm.trans hAperm).pairwise_iff hsymne).mpr hne
  have hgtD : D.Pairwise (fun x y => 0 < rowCompare c SortDirection.asc x y) := by
    refine (hsD.and hneD).imp ?_
    intro x y hxy
    obtain ⟨h1, h2⟩ := hxy
    simp only [hleD, decide_eq_true_eq, rowCompare_desc] at h1
    omega
  have hpermDR : D.Perm A.reverse := hDperm.trans (List.reverse_perm A).symm
  have hasymm : ∀ x y : Row,
      0 < rowCompare c SortDirection.asc x y → 0 < rowCompare c SortDirection.asc y x → False := by
    intro x y h1 h2
    rw [rowCompare_antisymm] at h2
    omega
  exact eq_of_perm_of_pairwise hasymm D A.reverse hpermDR hgtD hgtRev

/-! ## Unfolding the sort state machine -/

/-- With an empty `columnId`, the assignment-predicate is falsy on every
column, so `find` returns nothing. -/
theorem getHeaderColmun_empty_id :
    ∀ h : List Column, (getHeaderColmun h "").snd = none := by
  intro h
  induction h with
  | nil => rfl
  | cons col rest ih => simp [getHeaderColmun, ih]

theorem sort_eq_ok (s : TableState) (c : String) (col : Column) (rest : List Column)
    (hdom : c ∈ s.domHeaderIds) (hc : c ≠ "") (hh : s.header = col :: rest) :
    sort s c = Except.ok (sortResult s c col rest) := by
  unfold sort sortResult appliedDirection
  rw [if_pos hdom, hh]
  simp only [getHeaderColmun, if_pos hc, ne_eq]
  by_cases hsel : s.selectedColumnId = c
  · simp [hsel, hc]
  · simp [hsel, hc]

end SortableTable

open SortableTable

/-! ## The claims -/

/-- C1: the claim predicts that for the column values `"10"`, `"abc"`, `"2"`
an ascending sort falls back to pure lexicographic comparison across all
three values and yields `["10", "2", "abc"]`.  It does not: the comparator
applies the numeric policy per pair, so `"10"` vs `"2"` is compared
numerically, and the sorted value order is `["2", "10", "abc"]`. -/
theorem claim_C1_counterexample :
    ((_sort "col" SortDirection.asc [[("col", "10")], [("col", "abc")], [("col", "2")]]).map
        (fun r => rowValue r "col"))
      ≠ ["10", "2", "abc"] := by
  decide

/-- C1 (amended): for the column values `"10"`, `"abc"`, `"2"` the
comparison policy is applied pairwise: the pair `"10"`/`"2"` (both matching
`^[0-9,]+$`) is compared numerically (`10 > 2`), even though
lexicographically `"10" < "2"`; pairs involving `"abc"` are compared
lexicographically.  The ascending sort therefore yields the value order
`["2", "10", "abc"]`. -/
theorem claim_C1_amended :
    ((_sort "col" SortDirection.asc [[("col", "10")], [("col", "abc")], [("col", "2")]]).map
        (fun r => rowValue r "col"))
      = ["2", "10", "abc"]
    ∧ 0 < compareValues 1 "10" "2"
    ∧ jsStringLt "10" "2" = true := by
  decide

/-- C2: for the column values `"10"`, `"2"`, `"1,000"` (each matching
`^[0-9,]+$`), an ascending sort strips commas and compares numbers, yielding
the value order `["2", "10", "1,000"]`, not the lexicographic order. -/
theorem claim_C2 :
    ((_sort "col" SortDirection.asc [[("col", "10")], [("col", "2")], [("col", "1,000")]]).map
        (fun r => rowValue r "col"))
      = ["2", "10", "1,000"]
    ∧ ["2", "10", "1,000"] ≠ ["1,000", "10", "2"] := by
  decide

/-- C3: in a successful `sort columnId` call, if `columnId` equals the
currently selected column id, the direction applied (observable as the
`sort-*` marker) is the flip of the direction stored for the looked-up
column (the first header column, which holds the previously applied
direction); otherwise the column becomes the selected column and the applied
direction is ascending.  The flip sends Ascending to Descending, Descending
to Ascending, and an unset/falsy direction to Ascending. -/
theorem claim_C3 :
    (∀ (s : TableState) (c : String) (sNext : TableState) (col : Column) (rest : List Column),
        s.header = col :: rest →
        sort s c = Except.ok sNext →
        (s.selectedColumnId = c →
          sNext.sortMarker = some (c, getInversedSortDirection col.sortDirection) ∧
          sNext.selectedColumnId = c) ∧
        (s.selectedColumnId ≠ c →
          sNext.selectedColumnId = c ∧
          sNext.sortMarker = some (c, SortDirection.asc)))
    ∧ getInversedSortDirection none = SortDirection.asc
    ∧ getInversedSortDirection (some SortDirection.asc) = SortDirection.desc
    ∧ getInversedSortDirection (some SortDirection.desc) = SortDirection.asc := by
  refine ⟨?_, rfl, rfl, rfl⟩
  intro s c sNext col rest hh hsort
  by_cases hdom : c ∈ s.domHeaderIds
  · by_cases hc : c = ""
    · subst hc
      have hnone : (getHeaderColmun s.header "").snd = none := getHeaderColmun_empty_id s.header
      unfold SortableTable.sort at hsort
      rw [if_pos hdom] at hsort
      rcases hgc : getHeaderColmun s.header "" with ⟨h1, o⟩
      rw [hgc] at hsort hnone
      cases o with
      | none => exact Except.noConfusion hsort
      | some column => simp at hnone
    · rw [sort_eq_ok s c col rest hdom hc hh] at hsort
      have hs := Except.ok.inj hsort
      subst hs
      constructor
      · intro hsel
        simp [sortResult, appliedDirection, hsel]
      · intro hsel
        simp [sortResult, appliedDirection, hsel]
  · unfold SortableTable.sort at hsort
    rw [if_neg hdom] at hsort
    exact Except.noConfusion hsort

/-- C3 witness: column `a` is already selected with stored direction
Ascending; clicking it applies the flip (Descending) and keeps it selected. -/
theorem claim_C3_witness :
    exC3Next.sortMarker = some ("a", getInversedSortDirection (some SortDirection.asc))
    ∧ exC3Next.selectedColumnId = "a" :=
  (claim_C3.1 exC3State "a" exC3Next
      { id := "a", label := "A", sortable := true, sortDirection := some SortDirection.asc } []
      rfl (by decide)).1 rfl

/-- C4: the claim asserts the toggle law for every dataset whose cell values
in the column are pairwise distinct.  Distinct values can still tie under
the comparison policy: `"10"` and `"1,0"` are distinct strings that both
cast to the number `10`.  The stable sort leaves them in place in both
directions, so the descending order is not the reverse of the ascending
order. -/
theorem claim_C4_counterexample :
    exC4Data.Pairwise (fun a b => rowValue a "col" ≠ rowValue b "col")
    ∧ sort exC4S0 "col" = Except.ok exC4S1
    ∧ exC4S1.sortMarker = some ("col", SortDirection.asc)
    ∧ sort exC4S1 "col" = Except.ok exC4S2
    ∧ exC4S2.sortMarker = some ("col", SortDirection.desc)
    ∧ exC4S2.displayData ≠ exC4S1.displayData.reverse := by
  decide

/-- C4 (amended): for every dataset none of whose row pairs tie under the
column's comparison policy, and on whose rows the policy is transitive
(automatic when, e.g., all values are numeric-castable with distinct
numbers), sorting the column twice from a fresh table yields first the
ascending order, then exactly its reverse (the descending order). -/
theorem claim_C4 (H : List Column) (D : List Row) (c : String)
    (hc : c ≠ "")
    (hmem : c ∈ H.map Column.id)
    (hne : D.Pairwise (fun a b => rowCompare c SortDirection.asc a b ≠ 0))
    (htr : ∀ x ∈ D, ∀ y ∈ D, ∀ z ∈ D,
      rowCompare c SortDirection.asc x y ≤ 0 → rowCompare c SortDirection.asc y z ≤ 0 →
      rowCompare c SortDirection.asc x z ≤ 0) :
    ∃ s1 s2,
      sort (setData (setHeader initState (some H)) (some D)) c = Except.ok s1 ∧
      s1.sortMarker = some (c, SortDirection.asc) ∧
      sort s1 c = Except.ok s2 ∧
      s2.sortMarker = some (c, SortDirection.desc) ∧
      s2.displayData = s1.displayData.reverse := by
  obtain ⟨col, rest, rfl⟩ : ∃ col rest, H = col :: rest := by
    cases H with
    | nil => simp at hmem
    | cons col rest => exact ⟨col, rest, rfl⟩
  set s0 := setData (setHeader initState (some (col :: rest))) (some D) with hs0
  have hdom0 : c ∈ s0.domHeaderIds := by
    simpa [hs0, setData, setHeader, initState] using hmem
  have hh0 : s0.header = col :: rest := rfl
  have hsel0 : ¬ s0.selectedColumnId = c := fun h => hc h.symm
  have h1 := sort_eq_ok s0 c col rest hdom0 hc hh0
  have hdir1 : appliedDirection s0 c col = SortDirection.asc := by
    unfold appliedDirection
    rw [if_neg hsel0]
  set s1 := sortResult s0 c col rest with hs1
  have hmark1 : s1.sortMarker = some (c, SortDirection.asc) := by
    simp [hs1, sortResult, hdir1]
  have hdom1 : c ∈ s1.domHeaderIds := hdom0
  set colX : Column := { col with id := c, sortDirection := some (appliedDirection s0 c col) }
    with hcolX
  have hh1 : s1.header = colX :: rest := rfl
  have hsel1 : s1.selectedColumnId = c := rfl
  have h2 := sort_eq_ok s1 c colX rest hdom1 hc hh1
  set s2 := sortResult s1 c colX rest with hs2
  have hdir2 : appliedDirection s1 c colX = SortDirection.desc := by
    unfold appliedDirection
    rw [if_pos hsel1]
    show getInversedSortDirection (some (appliedDirection s0 c col)) = SortDirection.desc
    rw [hdir1]
    rfl
  have hmark2 : s2.sortMarker = some (c, SortDirection.desc) := by
    show some (c, appliedDirection s1 c colX) = some (c, SortDirection.desc)
    rw [hdir2]
  have hdisp : s2.displayData = s1.displayData.reverse := by
    have e2 : s2.displayData = _sort c (appliedDirection s1 c colX) s1.originalData := rfl
    have e1 : s1.displayData = _sort c (appliedDirection s0 c col) s0.originalData := rfl
    have e3 : s1.originalData = _sort c (appliedDirection s0 c col) s0.originalData := rfl
    rw [e2, e1, e3, hdir1, hdir2]
    exact desc_sort_reverse c s0.originalData hne htr
  exact ⟨s1, s2, h1, hmark1, h2, hmark2, hdisp⟩

/-- C4 witness: two rows with numeric values `1` and `2` — no ties, policy
transitive on the rows — so the second click reverses the first. -/
theorem claim_C4_witness :
    ∃ s1 s2,
      sort (setData (setHeader initState
          (some [{ id := "col", label := "Col", sortable := true, sortDirection := none }]))
          (some [[("col", "1")], [("col", "2")]])) "col" = Except.ok s1 ∧
      s1.sortMarker = some ("col", SortDirection.asc) ∧
      sort s1 "col" = Except.ok s2 ∧
      s2.sortMarker = some ("col", SortDirection.desc) ∧
      s2.displayData = s1.displayData.reverse :=
  claim_C4 _ _ "col" (by decide) (by decide) (by decide) (by decide)

/-- C5: `getHeaderColmun`, called with a non-empty `columnId` on a non-empty
header, returns the first column of the header with its `id` overwritten by
the requested `columnId` (the predicate assigns instead of comparing). -/
theorem claim_C5 (header : List Column) (columnId : String) (col : Column) (rest : List Column)
    (hh : header = col :: rest) (hc : columnId ≠ "") :
    getHeaderColmun header columnId =
      ({ col with id := columnId } :: rest, some { col with id := columnId }) := by
  subst hh
  simp [getHeaderColmun, hc]

/-- C5 witness: looking up `"zzz"` in a two-column header returns the first
column, its id overwritten with `"zzz"`; the second column is untouched. -/
theorem claim_C5_witness :
    getHeaderColmun
        [{ id := "a", label := "A", sortable := true, sortDirection := none },
          { id := "b", label := "B", sortable := true, sortDirection := none }] "zzz"
      = ([{ id := "zzz", label := "A", sortable := true, sortDirection := none },
          { id := "b", label := "B", sortable := true, sortDirection := none }],
          some { id := "zzz", label := "A", sortable := true, sortDirection := none }) :=
  claim_C5 _ "zzz" _ _ rfl (by decide)

/-- C6: sorting a column id that is not registered in the header schema
throws the explicit `data-id ... is not found.` error and never reorders the
data (the call produces no new state). -/
theorem claim_C6 (H : List Column) (D : List Row) (c : String)
    (habsent : c ∉ H.map Column.id) :
    sort (setData (setHeader initState (some H)) (some D)) c
      = Except.error ("data-id \"" ++ c ++ "\" is not found.") := by
  have hdom : c ∉ (setData (setHeader initState (some H)) (some D)).domHeaderIds := by
    simpa [setData, setHeader, initState] using habsent
  unfold SortableTable.sort
  rw [if_neg hdom]

/-- C6 witness: requesting the unknown column `"zzz"` errors out. -/
theorem claim_C6_witness :
    sort (setData (setHeader initState
        (some [{ id := "a", label := "A", sortable := true, sortDirection := none }]))
        (some [[("a", "1")]])) "zzz"
      = Except.error ("data-id \"" ++ "zzz" ++ "\" is not found.") :=
  claim_C6 _ _ "zzz" (by decide)

/-- C7: `setData(D)` followed by `getTableData()` (no sort in between)
returns exactly `D`: same rows, same order. -/
theorem claim_C7 (s : TableState) (D : List Row) :
    getTableData (setData s (some D)) = D :=
  rfl

/-- C8: the claim treats an *empty* header or dataset like an absent one (a
silent no-op).  The code only early-returns on a falsy argument; an empty
array is truthy, so `setData([])` replaces the stored dataset: the state
changes. -/
theorem claim_C8_counterexample :
    setData exC8S (some []) ≠ exC8S := by
  decide

/-- C8 (amended): an absent (null/undefined) header or dataset is a silent
no-op, leaving the state unchanged; an empty array is also accepted without
error, but it is stored: it replaces the header (resp. both datasets) with
the empty list instead of being ignored. -/
theorem claim_C8_amended (s : TableState) :
    setHeader s none = s
    ∧ setData s none = s
    ∧ (setHeader s (some [])).header = []
    ∧ (setData s (some [])).originalData = []
    ∧ (setData s (some [])).displayData = [] :=
  ⟨rfl, rfl, rfl, rfl, rfl⟩

/-- C9: on any dataset whose rows all carry the sort column's key, the
internal sort returns a permutation of the backing dataset — the same
multiset of rows, every row (and hence every cell value) unchanged. -/
theorem claim_C9 (columnId : String) (direction : SortDirection) (data : List Row)
    (hkeys : ∀ r ∈ data, (r.find? (fun cell => cell.fst == columnId)).isSome = true) :
    (_sort columnId direction data).Perm data :=
  jsSortBy_perm _ data

/-- C9 witness: a two-row dataset keyed by `a`. -/
theorem claim_C9_witness :
    (_sort "a" SortDirection.asc [[("a", "2")], [("a", "1")]]).Perm
      [[("a", "2")], [("a", "1")]] :=
  claim_C9 "a" SortDirection.asc _ (by decide)

/-- C10: the value `","` matches `^[0-9,]+$`; stripping its commas yields
the empty string, which casts to the number `0`; the ascending comparator
therefore places `","` before every value with a positive numeric
interpretation. -/
theorem claim_C10 :
    canCastToNumber "," = true
    ∧ removeCommas "," = ""
    ∧ jsNumber "" = 0
    ∧ (∀ v : String, canCastToNumber v = true → 0 < jsNumber (removeCommas v) →
        compareValues 1 "," v < 0) := by
  refine ⟨rfl, rfl, rfl, ?_⟩
  intro v hv hpos
  unfold compareValues
  have hcond : (canCastToNumber "," && canCastToNumber v) = true := by
    rw [hv]
    decide
  rw [if_pos hcond]
  have h0 : jsNumber (removeCommas ",") = 0 := by decide
  simp only [h0]
  rw [if_pos hpos]
  decide

/-- C10 witness: `","` sorts before `"5"` ascending. -/
theorem claim_C10_witness :
    compareValues 1 "," "5" < 0 :=
  claim_C10.2.2.2 "5" (by decide) (by decide)
